import Mathlib

/-!
Shallow embedding of the request-handling core of the stock-analysis
backend (`backend/main.py`): the sliding-window rate limiter, the
conversation store with TTL and capacity eviction, the tool adapters,
the forecast estimator and the streaming response multiplexer.

Time (Python `time.time()`) is modelled as `Int`; Python dicts (which
preserve insertion order) are modelled as association lists in insertion
order, with lookup returning the first (unique) matching key and
assignment updating in place or appending; the checkpointer's `storage`
dict is modelled as the list of thread ids that currently hold
checkpoint data.
-/

namespace StockAssist

/-! ### Rate limiter (`RATE_LIMIT`, `RATE_WINDOW`, `rate_limit_middleware`) -/

def RATE_LIMIT : Nat := 10

def RATE_WINDOW : Int := 60

/-- `rate_limit_store` is `dict[str, list[float]]`: per-client list of
request timestamps, modelled as an association list. -/
abbrev RateStore := List (String × List Int)

/-- `rate_limit_store[client_ip]` read access (`defaultdict(list)`:
a missing key reads as the empty list). -/
def getBucket : RateStore → String → List Int
  | [], _ => []
  | p :: rest, ip => if p.1 = ip then p.2 else getBucket rest ip

/-- `rate_limit_store[client_ip] = v`: update the (unique) entry in
place when the key is present, append otherwise. -/
def setBucket : RateStore → String → List Int → RateStore
  | [], ip, v => [(ip, v)]
  | p :: rest, ip, v => if p.1 = ip then (ip, v) :: rest else p :: setBucket rest ip v

/-- Outcome of the middleware before the downstream handler runs. -/
inductive MWResult where
  | rejected (status : Nat) (detail : String)
  | passed
  deriving DecidableEq, Repr

/-- The rate-limit rejection body's `detail` string. -/
def rateLimitDetail : String :=
  "요청 한도 초과. " ++ toString RATE_WINDOW ++ "초당 최대 "
    ++ toString RATE_LIMIT ++ "회 요청 가능합니다."

/-- `request.url.path.startswith("/api/")`, as a prefix test on the
path's character list. -/
def isApiPath (path : String) : Bool :=
  "/api/".data.isPrefixOf path.data

/-- `rate_limit_middleware` (`main.py` lines 76-90): on a path under
`/api/`, prune the client's bucket to timestamps `t` with
`now - t < RATE_WINDOW`, reject with 429 when at least `RATE_LIMIT`
remain, otherwise record `now` and pass the request through. -/
def rate_limit_middleware (path ip : String) (now : Int) (s : RateStore) :
    MWResult × RateStore :=
  if isApiPath path then
    let pruned := (getBucket s ip).filter (fun t => now - t < RATE_WINDOW)
    let s1 := setBucket s ip pruned
    if RATE_LIMIT ≤ pruned.length then
      (.rejected 429 rateLimitDetail, s1)
    else
      (.passed, setBucket s1 ip (pruned ++ [now]))
  else
    (.passed, s)

theorem getBucket_setBucket_self (s : RateStore) (ip : String) (v : List Int) :
    getBucket (setBucket s ip v) ip = v := by
  induction s with
  | nil => simp [setBucket, getBucket]
  | cons p rest ih =>
    by_cases hp : p.1 = ip
    · simp [setBucket, getBucket, hp]
    · simp [setBucket, getBucket, hp, ih]

theorem getBucket_setBucket_other (s : RateStore) (ip ip' : String)
    (v : List Int) (hne : ip' ≠ ip) :
    getBucket (setBucket s ip v) ip' = getBucket s ip' := by
  have h1 : ¬ ip = ip' := fun h => hne h.symm
  induction s with
  | nil => simp [setBucket, getBucket, h1]
  | cons p rest ih =>
    by_cases hp : p.1 = ip
    · have hp' : ¬ p.1 = ip' := by rw [hp]; exact h1
      simp [setBucket, getBucket, hp, hp', h1]
    · by_cases hp' : p.1 = ip'
      · simp [setBucket, getBucket, hp, hp', hne]
      · simp [setBucket, getBucket, hp, hp', ih]

/-- C1: on a path under the API prefix, the admission check first prunes
the client's recorded timestamps so that every timestamp older than
`RATE_WINDOW` is gone (every surviving timestamp `t` has
`now - t < RATE_WINDOW`); if at least `RATE_LIMIT` timestamps remain
after pruning the request is rejected with HTTP 429 (and its JSON
`detail` message) and `now` is not recorded (the bucket is exactly the
pruned list); otherwise `now` is appended and the request is admitted. -/
theorem rate_limiter_admission (path ip : String) (now : Int) (s : RateStore)
    (hpath : isApiPath path = true) :
    (∀ t ∈ getBucket (rate_limit_middleware path ip now s).2 ip,
        now - t < RATE_WINDOW) ∧
    (RATE_LIMIT ≤ ((getBucket s ip).filter (fun t => now - t < RATE_WINDOW)).length →
      (rate_limit_middleware path ip now s).1 = MWResult.rejected 429 rateLimitDetail ∧
      getBucket (rate_limit_middleware path ip now s).2 ip
        = (getBucket s ip).filter (fun t => now - t < RATE_WINDOW)) ∧
    (((getBucket s ip).filter (fun t => now - t < RATE_WINDOW)).length < RATE_LIMIT →
      (rate_limit_middleware path ip now s).1 = MWResult.passed ∧
      getBucket (rate_limit_middleware path ip now s).2 ip
        = (getBucket s ip).filter (fun t => now - t < RATE_WINDOW) ++ [now]) := by
  unfold rate_limit_middleware
  rw [if_pos hpath]
  by_cases hfull :
      RATE_LIMIT ≤ ((getBucket s ip).filter (fun t => now - t < RATE_WINDOW)).length
  · rw [if_pos hfull]
    refine ⟨?_, fun _ => ⟨rfl, getBucket_setBucket_self ..⟩, fun hlt => absurd hfull (not_le.mpr hlt)⟩
    intro t ht
    rw [getBucket_setBucket_self] at ht
    simpa using (List.mem_filter.mp ht).2
  · rw [if_neg hfull]
    refine ⟨?_, fun hge => absurd hge hfull, fun _ => ⟨rfl, getBucket_setBucket_self ..⟩⟩
    intro t ht
    rw [getBucket_setBucket_self] at ht
    rcases List.mem_append.mp ht with h | h
    · simpa using (List.mem_filter.mp h).2
    · simp only [List.mem_singleton] at h
      subst h
      simp [RATE_WINDOW]

/-- Witness for C1 at a concrete input: empty store, request on
`/api/chat` at time 0 is admitted and recorded. -/
theorem rate_limiter_admission_witness :
    (∀ t ∈ getBucket (rate_limit_middleware "/api/chat" "c" 0 []).2 "c",
        0 - t < RATE_WINDOW) ∧
    (RATE_LIMIT ≤ ((getBucket [] "c").filter (fun t => 0 - t < RATE_WINDOW)).length →
      (rate_limit_middleware "/api/chat" "c" 0 []).1 = MWResult.rejected 429 rateLimitDetail ∧
      getBucket (rate_limit_middleware "/api/chat" "c" 0 []).2 "c"
        = (getBucket [] "c").filter (fun t => 0 - t < RATE_WINDOW)) ∧
    (((getBucket [] "c").filter (fun t => 0 - t < RATE_WINDOW)).length < RATE_LIMIT →
      (rate_limit_middleware "/api/chat" "c" 0 []).1 = MWResult.passed ∧
      getBucket (rate_limit_middleware "/api/chat" "c" 0 []).2 "c"
        = (getBucket [] "c").filter (fun t => 0 - t < RATE_WINDOW) ++ [0]) :=
  rate_limiter_admission "/api/chat" "c" 0 [] (by decide)

/-- C10: a recorded timestamp whose age is exactly `RATE_WINDOW` is
treated as expired: it is pruned from the bucket, and an identity whose
bucket holds exactly `RATE_LIMIT` timestamps with its oldest exactly
`RATE_WINDOW` old sees its request admitted, not rejected. -/
theorem window_boundary_admitted (ip : String) (now m : Int) (s : RateStore)
    (hlen : (getBucket s ip).length = RATE_LIMIT)
    (hm : m ∈ getBucket s ip)
    (hage : now - m = RATE_WINDOW)
    (hmin : ∀ t ∈ getBucket s ip, m ≤ t) :
    (∀ t ∈ getBucket s ip, now - t = RATE_WINDOW →
        t ∉ getBucket (rate_limit_middleware "/api/chat" ip now s).2 ip) ∧
    (rate_limit_middleware "/api/chat" ip now s).1 = MWResult.passed := by
  have hmfail : ¬ (now - m < RATE_WINDOW) := by rw [hage]; exact lt_irrefl _
  have hshort :
      ((getBucket s ip).filter (fun t => now - t < RATE_WINDOW)).length < RATE_LIMIT := by
    rw [← hlen]
    exact List.length_filter_lt_length_iff_exists.mpr ⟨m, hm, by simpa using hmfail⟩
  have hmain := rate_limiter_admission "/api/chat" ip now s (by decide)
  refine ⟨?_, (hmain.2.2 hshort).1⟩
  intro t ht hage'
  rw [(hmain.2.2 hshort).2]
  intro hmem
  rcases List.mem_append.mp hmem with h | h
  · have hk := (List.mem_filter.mp h).2
    simp only [decide_eq_true_eq] at hk
    rw [hage'] at hk
    exact lt_irrefl _ hk
  · simp only [List.mem_singleton] at h
    subst h
    rw [sub_self] at hage'
    exact absurd hage' (by decide)

/-- Witness for C10: a bucket of 10 timestamps 0..9, request at time 60
(exactly the window after the oldest timestamp 0) is admitted. -/
theorem window_boundary_admitted_witness :
    (∀ t ∈ getBucket [("c", [0, 1, 2, 3, 4, 5, 6, 7, 8, 9])] "c", (60 : Int) - t = RATE_WINDOW →
        t ∉ getBucket (rate_limit_middleware "/api/chat" "c" 60
              [("c", [0, 1, 2, 3, 4, 5, 6, 7, 8, 9])]).2 "c") ∧
    (rate_limit_middleware "/api/chat" "c" 60
        [("c", [0, 1, 2, 3, 4, 5, 6, 7, 8, 9])]).1 = MWResult.passed :=
  window_boundary_admitted "c" 60 0 [("c", [0, 1, 2, 3, 4, 5, 6, 7, 8, 9])]
    (by decide) (by decide) (by decide) (by decide)

/-! ### Conversation store (`thread_last_active`, `checkpointer.storage`,
`cleanup_old_threads`, and the store-management prefix of `chat`) -/

def THREAD_TTL : Int := 3600

def THREAD_CLEANUP_INTERVAL : Int := 600

def MAX_THREADS : Nat := 200

/-- `thread_last_active : dict[str, float]`, in insertion order. -/
abbrev ThreadDict := List (String × Int)

/-- `thread_last_active[tid] = v`: update the (unique) entry in place,
append when absent. -/
def dictSet : ThreadDict → String → Int → ThreadDict
  | [], tid, v => [(tid, v)]
  | p :: rest, tid, v => if p.1 = tid then (tid, v) :: rest else p :: dictSet rest tid v

/-- One entry removal as performed at both deletion sites
(`chat` lines 222-227 and `cleanup_old_threads` lines 45-51):
`try: if tid in checkpointer.storage: del checkpointer.storage[tid]
except Exception: pass` followed by `thread_last_active.pop(tid, None)`.
`delOk = false` models the `del` raising: the exception is swallowed and
the storage is left as it was, while the liveness entry is popped
regardless. -/
def deleteThread (threads : ThreadDict) (storage : List String) (tid : String)
    (delOk : Bool) : ThreadDict × List String :=
  let storage' := if tid ∈ storage ∧ delOk then storage.filter (fun x => x ≠ tid) else storage
  (threads.filter (fun p => p.1 ≠ tid), storage')

/-- One pass of `cleanup_old_threads` (`main.py` lines 37-53): collect
the ids whose `now - last > THREAD_TTL` from a snapshot of the dict,
then delete each one. `delOk tid = false` models the checkpoint `del`
raising for that id. -/
def cleanup_old_threads_step (threads : ThreadDict) (storage : List String)
    (now : Int) (delOk : String → Bool) : ThreadDict × List String :=
  let expired := (threads.filter (fun p => now - p.2 > THREAD_TTL)).map Prod.fst
  expired.foldl (fun acc tid => deleteThread acc.1 acc.2 tid (delOk tid)) (threads, storage)

/-- Python `min(thread_last_active, key=thread_last_active.get)`: the
first entry (in insertion order) holding the minimum value, as the left
fold Python's `min` performs (a later entry replaces the running
minimum only when strictly smaller). -/
def firstMinPair (d : ThreadDict) : Option (String × Int) :=
  match d with
  | [] => none
  | p :: rest => some (rest.foldl (fun b q => if q.2 < b.2 then q else b) p)

/-- Right-recursive formulation of `firstMinPair`, used for induction. -/
def firstMinAux : ThreadDict → Option (String × Int)
  | [] => none
  | p :: rest =>
    match firstMinAux rest with
    | none => some p
    | some q => some (if q.2 < p.2 then q else p)

theorem foldl_min_eq_aux :
    ∀ (l : ThreadDict) (p : String × Int),
    l.foldl (fun b q => if q.2 < b.2 then q else b) p
      = match firstMinAux l with
        | none => p
        | some q => if q.2 < p.2 then q else p := by
  intro l
  induction l with
  | nil => intro p; simp [firstMinAux]
  | cons r rs ih =>
    intro p
    simp only [List.foldl_cons]
    rw [ih]
    cases h : firstMinAux rs with
    | none => simp [firstMinAux, h]
    | some q =>
      simp only [firstMinAux, h]
      split_ifs <;> first | rfl | omega

theorem firstMinPair_eq_aux (l : ThreadDict) : firstMinPair l = firstMinAux l := by
  cases l with
  | nil => rfl
  | cons p rest =>
    simp only [firstMinPair, foldl_min_eq_aux, firstMinAux]
    cases firstMinAux rest <;> simp

/-- The store-management prefix of the `chat` handler (`main.py` lines
219-227): refresh `thread_last_active[tid]`, and when the count exceeds
`MAX_THREADS` evict the entry returned by
`min(thread_last_active, key=thread_last_active.get)`. -/
def chatTouch (threads : ThreadDict) (storage : List String) (tid : String)
    (now : Int) (delOk : Bool) : ThreadDict × List String :=
  let threads1 := dictSet threads tid now
  if MAX_THREADS < threads1.length then
    match firstMinPair threads1 with
    | some q => deleteThread threads1 storage q.1 delOk
    | none => (threads1, storage)
  else
    (threads1, storage)

theorem foldl_delete_fst (delOk : String → Bool) :
    ∀ (ids : List String) (threads : ThreadDict) (storage : List String),
    (ids.foldl (fun acc tid => deleteThread acc.1 acc.2 tid (delOk tid)) (threads, storage)).1
      = threads.filter (fun p => decide (p.1 ∉ ids))
  | [], threads, storage => by simp
  | tid :: ids, threads, storage => by
    simp only [List.foldl_cons]
    rw [foldl_delete_fst delOk ids _ _]
    simp only [deleteThread]
    rw [List.filter_filter]
    apply List.filter_congr
    intro p _
    simp only [List.mem_cons, not_or]
    by_cases h1 : p.1 = tid <;> by_cases h2 : p.1 ∈ ids <;> simp [h1, h2]

theorem val_eq_of_nodup_keys :
    ∀ {l : ThreadDict}, (l.map Prod.fst).Nodup →
    ∀ {k : String} {a b : Int}, (k, a) ∈ l → (k, b) ∈ l → a = b := by
  intro l
  induction l with
  | nil => intro _ k a b ha; simp at ha
  | cons p rest ih =>
    intro hnd k a b ha hb
    simp only [List.map_cons, List.nodup_cons] at hnd
    rcases List.mem_cons.mp ha with ha | ha <;> rcases List.mem_cons.mp hb with hb | hb
    · exact congrArg Prod.snd (ha.trans hb.symm)
    · exfalso
      apply hnd.1
      rw [← ha]
      simpa using List.mem_map_of_mem Prod.fst hb
    · exfalso
      apply hnd.1
      rw [← hb]
      simpa using List.mem_map_of_mem Prod.fst ha
    · exact ih hnd.2 ha hb

theorem dictSet_eq_append {threads : ThreadDict} {tid : String}
    (h : tid ∉ threads.map Prod.fst) (now : Int) :
    dictSet threads tid now = threads ++ [(tid, now)] := by
  induction threads with
  | nil => simp [dictSet]
  | cons p rest ih =>
    simp only [List.map_cons, List.mem_cons, not_or] at h
    have hp : ¬ p.1 = tid := fun hc => h.1 hc.symm
    simp [dictSet, hp, ih h.2]

theorem firstMinAux_eq_none {l : ThreadDict} :
    firstMinAux l = none ↔ l = [] := by
  cases l with
  | nil => simp [firstMinAux]
  | cons p rest =>
    simp only [firstMinAux]
    cases firstMinAux rest <;> simp

theorem firstMinAux_split :
    ∀ (l : ThreadDict) (q : String × Int), firstMinAux l = some q →
    (∃ pre post, l = pre ++ q :: post ∧ ∀ p ∈ pre, q.2 < p.2) ∧ ∀ p ∈ l, q.2 ≤ p.2 := by
  intro l
  induction l with
  | nil => intro q h; simp [firstMinAux] at h
  | cons p rest ih =>
    intro q h
    simp only [firstMinAux] at h
    cases hr : firstMinAux rest with
    | none =>
      have hrest : rest = [] := firstMinAux_eq_none.mp hr
      rw [hr] at h
      simp only [Option.some.injEq] at h
      subst h; subst hrest
      exact ⟨⟨[], [], rfl, by simp⟩, by simp⟩
    | some m =>
      rw [hr] at h
      simp only [Option.some.injEq] at h
      obtain ⟨⟨pre', post', hsplit, hpre'⟩, hmin'⟩ := ih m hr
      by_cases hlt : m.2 < p.2
      · rw [if_pos hlt] at h
        subst h
        refine ⟨⟨p :: pre', post', by rw [hsplit, List.cons_append], ?_⟩, ?_⟩
        · intro x hx
          rcases List.mem_cons.mp hx with hx | hx
          · rw [hx]; exact hlt
          · exact hpre' x hx
        · intro x hx
          rcases List.mem_cons.mp hx with hx | hx
          · rw [hx]; exact le_of_lt hlt
          · exact hmin' x hx
      · rw [if_neg hlt] at h
        subst h
        refine ⟨⟨[], rest, rfl, by simp⟩, ?_⟩
        intro x hx
        rcases List.mem_cons.mp hx with hx | hx
        · rw [hx]
        · exact le_trans (not_lt.mp hlt) (hmin' x hx)

theorem firstMinAux_append_last :
    ∀ {l : ThreadDict}, l ≠ [] → ∀ (x : String × Int), (∀ p ∈ l, p.2 ≤ x.2) →
    firstMinAux (l ++ [x]) = firstMinAux l := by
  intro l
  induction l with
  | nil => intro h; exact absurd rfl h
  | cons p rest ih =>
    intro _ x hle
    cases rest with
    | nil =>
      have hp : p.2 ≤ x.2 := hle p (by simp)
      simp only [List.nil_append, List.singleton_append, firstMinAux]
      rw [if_neg (not_lt.mpr hp)]
    | cons r rs =>
      have hrec := ih (by simp) x (fun q hq => hle q (List.mem_cons_of_mem p hq))
      simp only [List.cons_append, firstMinAux] at hrec ⊢
      rw [hrec]

theorem firstMinPair_eq_none {l : ThreadDict} :
    firstMinPair l = none ↔ l = [] := by
  rw [firstMinPair_eq_aux]
  exact firstMinAux_eq_none

theorem firstMinPair_split (l : ThreadDict) (q : String × Int)
    (h : firstMinPair l = some q) :
    (∃ pre post, l = pre ++ q :: post ∧ ∀ p ∈ pre, q.2 < p.2) ∧ ∀ p ∈ l, q.2 ≤ p.2 :=
  firstMinAux_split l q (by rwa [firstMinPair_eq_aux] at h)

theorem firstMinPair_append_last {l : ThreadDict} (hne : l ≠ [])
    (x : String × Int) (hle : ∀ p ∈ l, p.2 ≤ x.2) :
    firstMinPair (l ++ [x]) = firstMinPair l := by
  rw [firstMinPair_eq_aux, firstMinPair_eq_aux]
  exact firstMinAux_append_last hne x hle

/-- C3: a TTL sweep at time `now` removes a tracked entry if and only if
`now - lastActiveAt > THREAD_TTL`; in particular an entry last touched
at `T` is removed by a sweep at `T + THREAD_TTL + 1` and retained by a
sweep at `T + THREAD_TTL - 1`. -/
theorem ttl_sweep_iff (threads : ThreadDict) (storage : List String) (now : Int)
    (delOk : String → Bool) (tid : String) (last : Int)
    (hnd : (threads.map Prod.fst).Nodup)
    (hmem : (tid, last) ∈ threads) :
    (tid ∈ (cleanup_old_threads_step threads storage now delOk).1.map Prod.fst ↔
      ¬ now - last > THREAD_TTL) ∧
    (now = last + THREAD_TTL + 1 →
      tid ∉ (cleanup_old_threads_step threads storage now delOk).1.map Prod.fst) ∧
    (now = last + THREAD_TTL - 1 →
      tid ∈ (cleanup_old_threads_step threads storage now delOk).1.map Prod.fst) := by
  have hiff : tid ∈ (cleanup_old_threads_step threads storage now delOk).1.map Prod.fst ↔
      ¬ now - last > THREAD_TTL := by
    unfold cleanup_old_threads_step
    rw [foldl_delete_fst]
    simp only [List.mem_map, List.mem_filter, decide_eq_true_eq]
    constructor
    · rintro ⟨p, ⟨hp, hnotexp⟩, hfst⟩ hgt
      apply hnotexp
      exact ⟨(tid, last), ⟨hmem, hgt⟩, hfst.symm⟩
    · intro hle
      refine ⟨(tid, last), ⟨hmem, ?_⟩, rfl⟩
      rintro ⟨q, ⟨hq, hqexp⟩, hqfst⟩
      have hqfst' : q.1 = tid := hqfst
      have hqthreads : (tid, q.2) ∈ threads := by
        have h' : (q.1, q.2) ∈ threads := by simpa using hq
        rwa [hqfst'] at h'
      have hval : q.2 = last := val_eq_of_nodup_keys hnd hqthreads hmem
      rw [hval] at hqexp
      exact hle hqexp
  refine ⟨hiff, fun h => ?_, fun h => ?_⟩
  · intro hin
    have hgt : now - last > THREAD_TTL := by rw [h]; omega
    exact (hiff.mp hin) hgt
  · apply hiff.mpr
    rw [h]
    omega

/-- Witness for C3: a single thread last active at 0 is removed by a
sweep at time 3601 (= `THREAD_TTL + 1`). -/
theorem ttl_sweep_iff_witness :
    ("x" ∈ (cleanup_old_threads_step [("x", 0)] ["x"] 3601 (fun _ => true)).1.map Prod.fst ↔
      ¬ (3601 : Int) - 0 > THREAD_TTL) ∧
    ((3601 : Int) = 0 + THREAD_TTL + 1 →
      "x" ∉ (cleanup_old_threads_step [("x", 0)] ["x"] 3601 (fun _ => true)).1.map Prod.fst) ∧
    ((3601 : Int) = 0 + THREAD_TTL - 1 →
      "x" ∈ (cleanup_old_threads_step [("x", 0)] ["x"] 3601 (fun _ => true)).1.map Prod.fst) :=
  ttl_sweep_iff [("x", 0)] ["x"] 3601 (fun _ => true) "x" 0 (by decide) (by decide)

theorem foldl_delete_snd :
    ∀ (ids : List String) (threads : ThreadDict) (storage : List String),
    (ids.foldl (fun acc tid => deleteThread acc.1 acc.2 tid true) (threads, storage)).2
      = storage.filter (fun x => decide (x ∉ ids))
  | [], _, storage => by simp
  | tid :: ids, threads, storage => by
    simp only [List.foldl_cons]
    rw [foldl_delete_snd ids _ _]
    simp only [deleteThread, and_true]
    by_cases hmem : tid ∈ storage
    · rw [if_pos hmem, List.filter_filter]
      apply List.filter_congr
      intro x _
      by_cases h1 : x = tid <;> by_cases h2 : x ∈ ids <;> simp [h1, h2]
    · rw [if_neg hmem]
      apply List.filter_congr
      intro x hx
      have hxt : ¬ x = tid := fun hc => hmem (hc ▸ hx)
      simp [hxt]

/-- C8 counterexample: one tracked thread `"x"` last active at 0 with
checkpoint data, swept at time 3601 while the checkpoint deletion
raises (the swallowed-exception path): afterwards the liveness record
is gone but the checkpoint data is still present, a state in which one
exists without the other. -/
theorem delete_atomicity_cex :
    (cleanup_old_threads_step [("x", 0)] ["x"] 3601 (fun _ => false)).1 = [] ∧
    (cleanup_old_threads_step [("x", 0)] ["x"] 3601 (fun _ => false)).2 = ["x"] := by
  decide

/-- C8 amended: when removing the checkpoint data does not raise, a
deletion (the shared operation of capacity eviction and the TTL sweep)
removes the liveness record and the checkpoint data together — after
`deleteThread` with a non-raising delete the id is tracked nowhere, and
a full sweep with non-raising deletes purges every expired id from both
maps; when the delete raises, the exception is swallowed: the liveness
record is still removed but the checkpoint data is left unchanged. -/
theorem delete_removes_both (threads : ThreadDict) (storage : List String)
    (tid : String) (delOk : Bool) :
    (∀ p ∈ (deleteThread threads storage tid delOk).1, p.1 ≠ tid) ∧
    (delOk = true → tid ∉ (deleteThread threads storage tid delOk).2) ∧
    (delOk = false → (deleteThread threads storage tid delOk).2 = storage) ∧
    (∀ now, tid ∈ (threads.filter (fun p => now - p.2 > THREAD_TTL)).map Prod.fst →
      tid ∉ (cleanup_old_threads_step threads storage now (fun _ => true)).1.map Prod.fst ∧
      tid ∉ (cleanup_old_threads_step threads storage now (fun _ => true)).2) := by
  refine ⟨?_, ?_, ?_, ?_⟩
  · intro p hp
    simpa using (List.mem_filter.mp hp).2
  · intro hok
    subst hok
    simp only [deleteThread]
    by_cases hmem : tid ∈ storage
    · rw [if_pos ⟨hmem, trivial⟩]
      intro hc
      simpa using (List.mem_filter.mp hc).2
    · rw [if_neg (fun hc => hmem hc.1)]
      exact hmem
  · intro hok
    subst hok
    simp [deleteThread]
  · intro now hexp
    constructor
    · unfold cleanup_old_threads_step
      rw [foldl_delete_fst]
      intro hc
      obtain ⟨p, hp, hfst⟩ := List.mem_map.mp hc
      have := (List.mem_filter.mp hp).2
      rw [hfst] at this
      simpa [hexp] using this
    · unfold cleanup_old_threads_step
      rw [foldl_delete_snd]
      intro hc
      simpa [hexp] using (List.mem_filter.mp hc).2

/-- Witness for C8 amended: deleting thread `"x"` with a non-raising
checkpoint delete removes it from both maps; with a raising delete the
storage is untouched. -/
theorem delete_removes_both_witness :
    (∀ p ∈ (deleteThread [("x", 0)] ["x"] "x" true).1, p.1 ≠ "x") ∧
    (true = true → "x" ∉ (deleteThread [("x", 0)] ["x"] "x" true).2) ∧
    (true = false → (deleteThread [("x", 0)] ["x"] "x" true).2 = ["x"]) ∧
    (∀ now, "x" ∈ (([("x", 0)] : ThreadDict).filter
        (fun p => now - p.2 > THREAD_TTL)).map Prod.fst →
      "x" ∉ (cleanup_old_threads_step [("x", 0)] ["x"] now (fun _ => true)).1.map Prod.fst ∧
      "x" ∉ (cleanup_old_threads_step [("x", 0)] ["x"] now (fun _ => true)).2) :=
  delete_removes_both [("x", 0)] ["x"] "x" true

/-- Python `<` on strings: lexicographic comparison of the code-point
sequences. -/
def strLtChars : List Char → List Char → Bool
  | [], [] => false
  | [], _ :: _ => true
  | _ :: _, [] => false
  | c :: cs, d :: ds =>
    if c.toNat < d.toNat then true
    else if d.toNat < c.toNat then false
    else strLtChars cs ds

/-- Python `a < b` for strings `a` and `b`. -/
def pyStrLt (a b : String) : Bool :=
  strLtChars a.data b.data

/-- A store of exactly `MAX_THREADS` threads in which the minimum
`lastActiveAt` (0) is attained by `"b"` (inserted first) and `"a"`
(inserted second), with `"a" < "b"` as strings; the remaining 198
threads have `lastActiveAt = 1`. -/
def cexStore : ThreadDict :=
  ("b", 0) :: ("a", 0) :: (List.range 198).map (fun i => ("t" ++ toString i, (1 : Int)))

set_option maxRecDepth 100000 in
set_option maxHeartbeats 4000000 in
/-- C2 counterexample: in `cexStore` the minimal `lastActiveAt` is 0,
attained exactly by `"a"` and `"b"` with `"a"` the smaller ID string,
so the claim predicts that touching the fresh id `"zz"` evicts `"a"`;
the code instead keeps `"a"` and evicts `"b"` (Python
`min(dict, key=dict.get)` breaks ties by insertion order, not by
smallest key). -/
theorem capacity_eviction_tiebreak_cex :
    cexStore.length = MAX_THREADS ∧
    "zz" ∉ cexStore.map Prod.fst ∧
    ("a", (0 : Int)) ∈ cexStore ∧
    ("b", (0 : Int)) ∈ cexStore ∧
    (∀ p ∈ cexStore, (0 : Int) ≤ p.2) ∧
    pyStrLt "a" "b" = true ∧
    (∀ p ∈ cexStore, p.2 = 0 → p.1 = "a" ∨ p.1 = "b") ∧
    "a" ∈ (chatTouch cexStore [] "zz" 2 true).1.map Prod.fst ∧
    "b" ∉ (chatTouch cexStore [] "zz" 2 true).1.map Prod.fst := by
  decide

/-- C2 amended: with the store at exactly `MAX_THREADS` distinct ids,
all last-active times at most `now`, touching a fresh id evicts exactly
one existing entry — the first-inserted entry among those with the
globally minimum `lastActiveAt` (insertion-order tie-break, not
smallest-ID) — appends the new id, and leaves the store again at
exactly `MAX_THREADS` entries. -/
theorem capacity_eviction_amended (threads : ThreadDict) (storage : List String)
    (tid : String) (now : Int) (delOk : Bool)
    (hlen : threads.length = MAX_THREADS)
    (hnd : (threads.map Prod.fst).Nodup)
    (hfresh : tid ∉ threads.map Prod.fst)
    (hmono : ∀ p ∈ threads, p.2 ≤ now) :
    ∃ k v pre post,
      threads = pre ++ (k, v) :: post ∧
      (∀ p ∈ pre, v < p.2) ∧
      (∀ p ∈ threads, v ≤ p.2) ∧
      (chatTouch threads storage tid now delOk).1 = (pre ++ post) ++ [(tid, now)] ∧
      (chatTouch threads storage tid now delOk).1.length = MAX_THREADS := by
  have hne : threads ≠ [] := by
    intro h
    rw [h] at hlen
    simp [MAX_THREADS] at hlen
  have hset : dictSet threads tid now = threads ++ [(tid, now)] := dictSet_eq_append hfresh now
  obtain ⟨q, hq⟩ : ∃ q, firstMinPair threads = some q := by
    cases hfm : firstMinPair threads with
    | none => exact absurd (firstMinPair_eq_none.mp hfm) hne
    | some q => exact ⟨q, rfl⟩
  obtain ⟨⟨pre, post, hsplit, hpre⟩, hmins⟩ := firstMinPair_split threads q hq
  have hfm1 : firstMinPair (threads ++ [(tid, now)]) = some q := by
    rw [firstMinPair_append_last hne (tid, now) hmono, hq]
  have hqmem : q ∈ threads := by
    rw [hsplit]
    exact List.mem_append_right _ (List.mem_cons_self ..)
  have hndk : (pre.map Prod.fst ++ q.1 :: post.map Prod.fst).Nodup := by
    have h' := hnd
    rw [hsplit, List.map_append, List.map_cons] at h'
    exact h'
  have hknotpre : ∀ p ∈ pre, p.1 ≠ q.1 := by
    intro p hp hc
    exact (List.nodup_append.mp hndk).2.2 (List.mem_map_of_mem Prod.fst hp)
      (by rw [hc]; exact List.mem_cons_self ..)
  have hknotpost : ∀ p ∈ post, p.1 ≠ q.1 := by
    intro p hp hc
    have hqnot : q.1 ∉ post.map Prod.fst :=
      (List.nodup_cons.mp (List.nodup_append.mp hndk).2.1).1
    exact hqnot (hc ▸ List.mem_map_of_mem Prod.fst hp)
  have htidne : tid ≠ q.1 := by
    intro hc
    apply hfresh
    rw [hc]
    exact List.mem_map_of_mem Prod.fst hqmem
  have hlen1 : MAX_THREADS < (threads ++ [(tid, now)]).length := by
    rw [List.length_append, hlen]
    simp
  have hcomp : (chatTouch threads storage tid now delOk).1
      = (threads ++ [(tid, now)]).filter (fun p => decide (p.1 ≠ q.1)) := by
    unfold chatTouch
    rw [hset, if_pos hlen1, hfm1]
    simp [deleteThread]
  have hfilters :
      (threads ++ [(tid, now)]).filter (fun p => decide (p.1 ≠ q.1))
        = (pre ++ post) ++ [(tid, now)] := by
    rw [hsplit, List.filter_append, List.filter_append, List.filter_cons]
    have h1 : pre.filter (fun p => decide (p.1 ≠ q.1)) = pre :=
      List.filter_eq_self.mpr (fun p hp => by simpa using hknotpre p hp)
    have h2 : post.filter (fun p => decide (p.1 ≠ q.1)) = post :=
      List.filter_eq_self.mpr (fun p hp => by simpa using hknotpost p hp)
    have h3 : ([(tid, now)] : ThreadDict).filter (fun p => decide (p.1 ≠ q.1))
        = [(tid, now)] := by
      simp [htidne]
    rw [h1, h2, h3]
    simp
  have hfinal : (chatTouch threads storage tid now delOk).1 = (pre ++ post) ++ [(tid, now)] :=
    hcomp.trans hfilters
  refine ⟨q.1, q.2, pre, post, ?_, hpre, hmins, hfinal, ?_⟩
  · rw [Prod.mk.eta]
    exact hsplit
  · rw [hfinal]
    have hsl := congrArg List.length hsplit
    rw [hlen] at hsl
    simp only [List.length_append, List.length_cons, List.length_nil] at hsl ⊢
    omega

/-- A store of 200 distinct thread ids, all last active at time 0. -/
def witStore : ThreadDict :=
  (List.range 200).map (fun i => ("t" ++ toString i, (0 : Int)))

set_option maxRecDepth 100000 in
set_option maxHeartbeats 4000000 in
/-- Witness for C2 amended: touching the fresh id `"zz"` at time 5 on a
full 200-entry store evicts one entry and restores the count to 200. -/
theorem capacity_eviction_amended_witness :
    ∃ k v pre post,
      witStore = pre ++ (k, v) :: post ∧
      (∀ p ∈ pre, v < p.2) ∧
      (∀ p ∈ witStore, v ≤ p.2) ∧
      (chatTouch witStore [] "zz" 5 true).1 = (pre ++ post) ++ [("zz", 5)] ∧
      (chatTouch witStore [] "zz" 5 true).1.length = MAX_THREADS :=
  capacity_eviction_amended witStore [] "zz" 5 true
    (by decide) (by decide) (by decide) (by decide)

/-! ### Forecast estimator (`generate_stock_forecast`) -/

/-- Result of `generate_stock_forecast`: either the no-data sentinel
string or the list of (ordinal date, rounded price) forecast points. -/
inductive ForecastResult where
  | noData (msg : String)
  | points (pts : List (Int × Rat))
  deriving DecidableEq, Repr

/-- Python `round(float(p), 2)`: round to 2 decimal places (prices
modelled as rationals; floats are out of scope). -/
def round2 (x : Rat) : Rat :=
  ((round (x * 100) : Int) : Rat) / 100

/-- `generate_stock_forecast` (`main.py` lines 155-188). The fetched
2-year history is the input `hist`, a list of (ordinal date, close)
pairs in date order; the fitted degree-2 polynomial regression is the
abstract `predict : ordinal → price` (the spec treats the forecasting
internals as an external collaborator, "fit and extrapolate a trend").
Empty history returns the sentinel string; otherwise `months` future
dates spaced 30 days apart starting 30 days after the last observed
date, each with the predicted price rounded to 2 decimals. -/
def generate_stock_forecast (hist : List (Int × Rat)) (predict : Int → Rat)
    (months : Nat) : ForecastResult :=
  if hist.isEmpty then
    .noData "Not enough data to forecast."
  else
    let last_date := ((hist.getLast?).getD (0, 0)).1
    let future_dates := (List.range months).map (fun (i : Nat) => last_date + 30 * ((i : Int) + 1))
    .points (future_dates.map (fun d => (d, round2 (predict d))))

/-- C5: for a non-empty history, the forecast is a `points` list of
exactly `months` entries whose dates increase strictly in steps of 30
days starting 30 days after the last observed date, with every price
equal to the rounded model prediction (an integer number of
hundredths); for an empty history it is the no-data sentinel, not an
empty `points` list. -/
theorem forecast_shape (hist : List (Int × Rat)) (predict : Int → Rat) (months : Nat) :
    (hist = [] →
      generate_stock_forecast hist predict months
        = ForecastResult.noData "Not enough data to forecast.") ∧
    (hist ≠ [] →
      ∃ pts, generate_stock_forecast hist predict months = ForecastResult.points pts ∧
        pts.length = months ∧
        (∀ i (hi : i < pts.length),
          (pts.get ⟨i, hi⟩).1 = ((hist.getLast?).getD (0, 0)).1 + 30 * ((i : Int) + 1)) ∧
        (∀ i (hi : i + 1 < pts.length),
          (pts.get ⟨i, Nat.lt_of_succ_lt hi⟩).1 < (pts.get ⟨i + 1, hi⟩).1) ∧
        (∀ p ∈ pts, p.2 = round2 (predict p.1) ∧ ∃ n : Int, p.2 = (n : Rat) / 100)) := by
  constructor
  · intro h
    subst h
    simp [generate_stock_forecast]
  · intro hne
    have hempty : ¬ (hist.isEmpty = true) := by
      simp [List.isEmpty_iff, hne]
    refine ⟨_, by rw [generate_stock_forecast, if_neg hempty], ?_, ?_, ?_, ?_⟩
    · simp
    · intro i hi
      simp only [List.length_map, List.length_range] at hi
      simp [List.get_eq_getElem, List.getElem_map, List.getElem_range]
    · intro i hi
      simp only [List.length_map, List.length_range] at hi
      simp only [List.get_eq_getElem, List.getElem_map, List.getElem_range]
      push_cast
      omega
    · intro p hp
      simp only [List.mem_map, List.mem_range] at hp
      obtain ⟨d, ⟨i, _, hd⟩, hpd⟩ := hp
      subst hpd
      exact ⟨rfl, round (predict d * 100), rfl⟩

/-- Witness for C5 at a concrete input: a one-point history `(0, 5)`
with the identity prediction and `months = 2`. -/
theorem forecast_shape_witness :
    (([((0 : Int), (5 : Rat))] : List (Int × Rat)) = [] →
      generate_stock_forecast [((0 : Int), (5 : Rat))] (fun d => (d : Rat)) 2
        = ForecastResult.noData "Not enough data to forecast.") ∧
    (([((0 : Int), (5 : Rat))] : List (Int × Rat)) ≠ [] →
      ∃ pts, generate_stock_forecast [((0 : Int), (5 : Rat))] (fun d => (d : Rat)) 2
          = ForecastResult.points pts ∧
        pts.length = 2 ∧
        (∀ i (hi : i < pts.length),
          (pts.get ⟨i, hi⟩).1
            = ((([((0 : Int), (5 : Rat))] : List (Int × Rat)).getLast?).getD (0, 0)).1
                + 30 * ((i : Int) + 1)) ∧
        (∀ i (hi : i + 1 < pts.length),
          (pts.get ⟨i, Nat.lt_of_succ_lt hi⟩).1 < (pts.get ⟨i + 1, hi⟩).1) ∧
        (∀ p ∈ pts, p.2 = round2 ((fun d => (d : Rat)) p.1) ∧
          ∃ n : Int, p.2 = (n : Rat) / 100)) :=
  forecast_shape [((0 : Int), (5 : Rat))] (fun d => (d : Rat)) 2

/-! ### Tool adapters (`get_stock_price`, `get_historical_stock_price`) -/

/-- Result of the price adapter: the no-data sentinel string or the
latest close. -/
inductive PriceResult where
  | noData (msg : String)
  | price (p : Rat)
  deriving DecidableEq, Repr

/-- `get_stock_price` (`main.py` lines 109-116). The provider call
`stock.history(period='5d')` is the `fetch` argument, whose
`Except.error` models a raised provider exception; the adapter body has
no try/except, so the error propagates unchanged. An empty history
yields the no-data sentinel; otherwise the last close is returned. -/
def get_stock_price (ticker : String) (fetch : Except String (List Rat)) :
    Except String PriceResult :=
  match fetch with
  | .error e => .error e
  | .ok history =>
    if history.isEmpty then
      .ok (.noData ("No price data found for " ++ ticker ++ "."))
    else
      .ok (.price (history.getLast?.getD 0))

/-- `get_historical_stock_price` (`main.py` lines 119-125). The
provider call `stock.history(start=..., end=...)` is `fetch`, returning
rows of (nanosecond timestamp, close); the adapter has no try/except,
so a provider error propagates. On success the index is converted to
milliseconds (`hist.index.astype('int64') // 1_000_000`, a floor
division) and the data returned. -/
def get_historical_stock_price (ticker start_date end_date : String)
    (fetch : Except String (List (Int × Rat))) : Except String (List (Int × Rat)) :=
  match fetch with
  | .error e => .error e
  | .ok hist => .ok (hist.map (fun p => (Int.fdiv p.1 1000000, p.2)))

/-- Result of the balance-sheet adapter: the no-data sentinel string or
the parsed statement rows. -/
inductive BalanceSheetResult where
  | noData (msg : String)
  | sheet (data : List (String × Rat))
  deriving DecidableEq, Repr

/-- `get_balance_sheet` (`main.py` lines 128-135). The provider
attribute access `stock.balance_sheet` is `fetch`: `Except.error`
models a raised provider exception, `Option.none` models
`bs is None`, and rows model the frame. The body has no try/except, so
a provider error propagates; a `None` or empty frame yields the
sentinel, otherwise the statement is returned (the
`json.loads(bs.to_json(orient='split'))` round-trip is the identity at
this level of modelling). -/
def get_balance_sheet (ticker : String)
    (fetch : Except String (Option (List (String × Rat)))) :
    Except String BalanceSheetResult :=
  match fetch with
  | .error e => .error e
  | .ok bs =>
    match bs with
    | none => .ok (.noData "No balance sheet data found.")
    | some rows =>
      if rows.isEmpty then .ok (.noData "No balance sheet data found.")
      else .ok (.sheet rows)

/-- `get_stock_news` (`main.py` lines 138-142). The provider attribute
access `stock.news` is `fetch`; the body has no try/except, so a
provider error propagates; on success the news list is passed through
unchanged. -/
def get_stock_news (ticker : String) (fetch : Except String (List String)) :
    Except String (List String) :=
  match fetch with
  | .error e => .error e
  | .ok news => .ok news

/-- Result of the recommendations adapter: the no-data sentinel string
or the rating records. -/
inductive RecommendationsResult where
  | noData (msg : String)
  | records (rows : List String)
  deriving DecidableEq, Repr

/-- `get_analyst_recommendations` (`main.py` lines 145-152). The
provider attribute access `stock.recommendations` is `fetch`
(`Option.none` models `recommendations is None`); the body has no
try/except, so a provider error propagates; a present non-empty frame
is returned as records, anything else yields the sentinel. -/
def get_analyst_recommendations (ticker : String)
    (fetch : Except String (Option (List String))) :
    Except String RecommendationsResult :=
  match fetch with
  | .error e => .error e
  | .ok recommendations =>
    match recommendations with
    | some rows =>
      if ¬ rows.isEmpty then .ok (.records rows)
      else .ok (.noData "No recommendations found.")
    | none => .ok (.noData "No recommendations found.")

/-- The forecast adapter including its provider call
(`stock.history(period="2y")`, `main.py` line 159), which `fetch` may
fail like the other adapters' provider calls; the body has no
try/except, so a provider error propagates, and on success the
computation is `generate_stock_forecast` on the fetched history. -/
def generate_stock_forecast_tool (ticker : String)
    (fetch : Except String (List (Int × Rat))) (predict : Int → Rat)
    (months : Nat) : Except String ForecastResult :=
  match fetch with
  | .error e => .error e
  | .ok hist => .ok (generate_stock_forecast hist predict months)

/-- C6 counterexample: a provider failure during `get_stock_price` (and
`get_historical_stock_price`) is not caught and not returned as a
tagged error result — the raised exception propagates out of the
adapter into the agent loop. -/
theorem adapter_error_propagates_cex :
    get_stock_price "AAPL" (Except.error "network error") = Except.error "network error" ∧
    (get_stock_price "AAPL" (Except.error "network error")).isOk = false ∧
    get_historical_stock_price "AAPL" "2024-01-01" "2024-02-01" (Except.error "network error")
      = Except.error "network error" :=
  ⟨rfl, rfl, rfl⟩

/-- C6 amended: none of the six tool adapters (price, historical
series, balance sheet, news, recommendations, forecast) contains any
provider-failure handling: a provider-level failure raised during an
invocation propagates out of the adapter unchanged (any containment
happens in the external agent framework, outside this repository);
only empty-but-successful provider responses are mapped to the
explicit no-data sentinels (price, balance sheet, recommendations,
forecast; news passes its data through). -/
theorem adapter_error_propagation (ticker start_date end_date e : String)
    (predict : Int → Rat) (months : Nat) :
    get_stock_price ticker (Except.error e) = Except.error e ∧
    get_historical_stock_price ticker start_date end_date (Except.error e)
      = Except.error e ∧
    get_balance_sheet ticker (Except.error e) = Except.error e ∧
    get_stock_news ticker (Except.error e) = Except.error e ∧
    get_analyst_recommendations ticker (Except.error e) = Except.error e ∧
    generate_stock_forecast_tool ticker (Except.error e) predict months
      = Except.error e ∧
    get_stock_price ticker (Except.ok [])
      = Except.ok (PriceResult.noData ("No price data found for " ++ ticker ++ ".")) ∧
    get_balance_sheet ticker (Except.ok none)
      = Except.ok (BalanceSheetResult.noData "No balance sheet data found.") ∧
    get_balance_sheet ticker (Except.ok (some []))
      = Except.ok (BalanceSheetResult.noData "No balance sheet data found.") ∧
    get_analyst_recommendations ticker (Except.ok none)
      = Except.ok (RecommendationsResult.noData "No recommendations found.") ∧
    get_analyst_recommendations ticker (Except.ok (some []))
      = Except.ok (RecommendationsResult.noData "No recommendations found.") ∧
    (∀ items : List String, get_stock_news ticker (Except.ok items) = Except.ok items) ∧
    generate_stock_forecast_tool ticker (Except.ok []) predict months
      = Except.ok (ForecastResult.noData "Not enough data to forecast.") :=
  ⟨rfl, rfl, rfl, rfl, rfl, rfl, rfl, rfl, rfl, rfl, rfl, fun _ => rfl, rfl⟩

/-! ### Streaming response multiplexer (the `generate` generator inside
`chat`, `main.py` lines 229-266) -/

/-- A structured tool output as passed to `json.dumps`: `payload` is
its content, `serializable` models whether `json.dumps` succeeds on
it. -/
structure ToolOutput where
  payload : String
  serializable : Bool
  deriving DecidableEq, Repr

/-- Agent events (`agent.astream_events`, version v1) as consumed by
the multiplexer: model-token chunks, tool completions, and every other
event kind. -/
inductive AgentEvent where
  | on_chat_model_stream (content : String)
  | on_tool_end (name : String) (output : ToolOutput)
  | other
  deriving DecidableEq, Repr

/-- One line of the streamed newline-delimited protocol. -/
inductive ProtocolEvent where
  | text (content : String)
  | chart (data : ToolOutput)
  | forecast (data : ToolOutput)
  | analyst_rating (data : ToolOutput)
  | news (data : ToolOutput)
  | balance_sheet (data : ToolOutput)
  deriving DecidableEq, Repr

/-- How the stream ended: `closed` when the agent event sequence was
exhausted, `raised` when an uncaught exception (a `json.dumps` failure
outside the guarded balance-sheet branch) terminated the generator. -/
inductive StreamEnd where
  | closed
  | raised
  deriving DecidableEq, Repr

/-- The `generate` async generator (`main.py` lines 229-266): consume
the agent events in order; a model-token event with truthy (non-empty)
content yields a text line; a tool completion yields one typed line per
recognized tool name; `json.dumps` on a non-serializable output raises,
and only the `get_balance_sheet` branch wraps it in try/except,
downgrading the failure to a text notice — in the other structured
branches the exception propagates and ends the stream. -/
def generate : List AgentEvent → List ProtocolEvent × StreamEnd
  | [] => ([], .closed)
  | e :: rest =>
    match e with
    | .on_chat_model_stream c =>
      if c ≠ "" then
        ((.text c) :: (generate rest).1, (generate rest).2)
      else
        generate rest
    | .on_tool_end name output =>
      if name = "get_historical_stock_price" then
        if output.serializable then
          ((.chart output) :: (generate rest).1, (generate rest).2)
        else ([], .raised)
      else if name = "generate_stock_forecast" then
        if output.serializable then
          ((.forecast output) :: (generate rest).1, (generate rest).2)
        else ([], .raised)
      else if name = "get_analyst_recommendations" then
        if output.serializable then
          ((.analyst_rating output) :: (generate rest).1, (generate rest).2)
        else ([], .raised)
      else if name = "get_stock_news" then
        if output.serializable then
          ((.news output) :: (generate rest).1, (generate rest).2)
        else ([], .raised)
      else if name = "get_balance_sheet" then
        if output.serializable then
          ((.balance_sheet output) :: (generate rest).1, (generate rest).2)
        else
          ((.text "Error displaying balance sheet.") :: (generate rest).1, (generate rest).2)
      else
        generate rest
    | .other => generate rest

/-- The per-event classification stated by the spec (§4.5): the
protocol events one agent event should contribute. -/
def emitOf : AgentEvent → List ProtocolEvent
  | .on_chat_model_stream c => if c ≠ "" then [.text c] else []
  | .on_tool_end name output =>
    if name = "get_historical_stock_price" then [.chart output]
    else if name = "generate_stock_forecast" then [.forecast output]
    else if name = "get_analyst_recommendations" then [.analyst_rating output]
    else if name = "get_stock_news" then [.news output]
    else if name = "get_balance_sheet" then [.balance_sheet output]
    else []
  | .other => []

/-- Whether the spec classifies an event as emitting a protocol
event. -/
def classified : AgentEvent → Bool
  | .on_chat_model_stream c => c ≠ ""
  | .on_tool_end name _ =>
    name ∈ ["get_historical_stock_price", "generate_stock_forecast",
      "get_analyst_recommendations", "get_stock_news", "get_balance_sheet"]
  | .other => false

/-- Whether an event's structured payload serializes (model-token and
other events carry no structured payload). -/
def eventSerializable : AgentEvent → Bool
  | .on_tool_end _ output => output.serializable
  | _ => true

/-- C4: for every agent event sequence whose structured payloads
serialize, the multiplexer emits, in arrival order, exactly one
protocol event per classified source event — text for a non-empty
model token, chart / forecast / analyst_rating / news / balance_sheet
for the five recognized tool names — and nothing for unrecognized tool
names or other event kinds; the stream then closes normally. -/
theorem multiplexer_classification (es : List AgentEvent)
    (h : ∀ e ∈ es, eventSerializable e = true) :
    generate es = (es.flatMap emitOf, StreamEnd.closed) ∧
    (∀ e ∈ es, (emitOf e).length = if classified e then 1 else 0) := by
  constructor
  · induction es with
    | nil => simp [generate]
    | cons e rest ih =>
      have hrest := ih (fun x hx => h x (List.mem_cons_of_mem e hx))
      have he := h e (List.mem_cons_self ..)
      cases e with
      | on_chat_model_stream c =>
        by_cases hc : c = ""
        · simp [generate, emitOf, hc, hrest]
        · simp [generate, emitOf, hc, hrest]
      | on_tool_end name output =>
        have hser : output.serializable = true := he
        by_cases h1 : name = "get_historical_stock_price"
        · simp [generate, emitOf, h1, hser, hrest]
        · by_cases h2 : name = "generate_stock_forecast"
          · simp [generate, emitOf, h1, h2, hser, hrest]
          · by_cases h3 : name = "get_analyst_recommendations"
            · simp [generate, emitOf, h1, h2, h3, hser, hrest]
            · by_cases h4 : name = "get_stock_news"
              · simp [generate, emitOf, h1, h2, h3, h4, hser, hrest]
              · by_cases h5 : name = "get_balance_sheet"
                · simp [generate, emitOf, h1, h2, h3, h4, h5, hser, hrest]
                · simp [generate, emitOf, h1, h2, h3, h4, h5, hrest]
      | other => simp [generate, emitOf, hrest]
  · intro e _
    cases e with
    | on_chat_model_stream c =>
      by_cases hc : c = "" <;> simp [emitOf, classified, hc]
    | on_tool_end name output =>
      by_cases h1 : name = "get_historical_stock_price"
      · simp [emitOf, classified, h1]
      · by_cases h2 : name = "generate_stock_forecast"
        · simp [emitOf, classified, h1, h2]
        · by_cases h3 : name = "get_analyst_recommendations"
          · simp [emitOf, classified, h1, h2, h3]
          · by_cases h4 : name = "get_stock_news"
            · simp [emitOf, classified, h1, h2, h3, h4]
            · by_cases h5 : name = "get_balance_sheet"
              · simp [emitOf, classified, h1, h2, h3, h4, h5]
              · simp [emitOf, classified, h1, h2, h3, h4, h5]
    | other => simp [emitOf, classified]

/-- The agent event sequence used as the C4 witness: one non-empty and
one empty token, all five recognized tools, one unrecognized tool, one
other event. -/
def witEvents : List AgentEvent :=
  [.on_chat_model_stream "hello",
   .on_chat_model_stream "",
   .on_tool_end "get_historical_stock_price" ⟨"h", true⟩,
   .on_tool_end "generate_stock_forecast" ⟨"f", true⟩,
   .on_tool_end "get_analyst_recommendations" ⟨"r", true⟩,
   .on_tool_end "get_stock_news" ⟨"n", true⟩,
   .on_tool_end "get_balance_sheet" ⟨"b", true⟩,
   .on_tool_end "get_stock_price" ⟨"p", true⟩,
   .other]

/-- Witness for C4 on `witEvents`. -/
theorem multiplexer_classification_witness :
    generate witEvents = (witEvents.flatMap emitOf, StreamEnd.closed) ∧
    (∀ e ∈ witEvents, (emitOf e).length = if classified e then 1 else 0) :=
  multiplexer_classification witEvents (by decide)

/-- C4 counterexample (to the unconditional form of the claim): a
sequence of two classified events — a `generate_stock_forecast`
completion whose payload fails to serialize followed by a non-empty
model token — should emit exactly one protocol event each (two in
total), but the code emits none and the stream ends raised. -/
theorem multiplexer_drop_on_raise_cex :
    generate [AgentEvent.on_tool_end "generate_stock_forecast" ⟨"f", false⟩,
        AgentEvent.on_chat_model_stream "hi"]
      = ([], StreamEnd.raised) ∧
    classified (AgentEvent.on_tool_end "generate_stock_forecast" ⟨"f", false⟩) = true ∧
    classified (AgentEvent.on_chat_model_stream "hi") = true ∧
    (([AgentEvent.on_tool_end "generate_stock_forecast" ⟨"f", false⟩,
        AgentEvent.on_chat_model_stream "hi"].flatMap emitOf)).length = 2 := by
  refine ⟨rfl, ?_, ?_, rfl⟩ <;> decide

/-- C7 counterexample: a `get_historical_stock_price` completion whose
payload fails to serialize terminates the stream with a raised
exception and emits no text notice — the failure is not caught. -/
theorem serialization_failure_cex :
    generate [AgentEvent.on_tool_end "get_historical_stock_price" ⟨"chartdata", false⟩]
      = ([], StreamEnd.raised) :=
  rfl

/-- C7 amended: only the balance-sheet branch guards `json.dumps`: a
non-serializable `get_balance_sheet` payload is downgraded to the text
notice 'Error displaying balance sheet.' and the stream continues,
while a serialization failure in every other structured branch —
chart (`get_historical_stock_price`), forecast
(`generate_stock_forecast`), analyst rating
(`get_analyst_recommendations`) and news (`get_stock_news`) — is
uncaught and terminates the stream with nothing emitted from that
event on. -/
theorem balance_sheet_downgrade (output : ToolOutput) (rest : List AgentEvent)
    (h : output.serializable = false) :
    generate (AgentEvent.on_tool_end "get_balance_sheet" output :: rest)
      = ((ProtocolEvent.text "Error displaying balance sheet.") :: (generate rest).1,
         (generate rest).2) ∧
    generate (AgentEvent.on_tool_end "get_historical_stock_price" output :: rest)
      = ([], StreamEnd.raised) ∧
    generate (AgentEvent.on_tool_end "generate_stock_forecast" output :: rest)
      = ([], StreamEnd.raised) ∧
    generate (AgentEvent.on_tool_end "get_analyst_recommendations" output :: rest)
      = ([], StreamEnd.raised) ∧
    generate (AgentEvent.on_tool_end "get_stock_news" output :: rest)
      = ([], StreamEnd.raised) := by
  obtain ⟨payload, ser⟩ := output
  have h2 : ser = false := h
  subst h2
  exact ⟨rfl, rfl, rfl, rfl, rfl⟩

/-- Witness for C7 amended at a concrete non-serializable output and
empty remainder. -/
theorem balance_sheet_downgrade_witness :
    generate [AgentEvent.on_tool_end "get_balance_sheet" ⟨"bs", false⟩]
      = ((ProtocolEvent.text "Error displaying balance sheet.")
          :: (generate ([] : List AgentEvent)).1, (generate ([] : List AgentEvent)).2) ∧
    generate [AgentEvent.on_tool_end "get_historical_stock_price" ⟨"bs", false⟩]
      = ([], StreamEnd.raised) ∧
    generate [AgentEvent.on_tool_end "generate_stock_forecast" ⟨"bs", false⟩]
      = ([], StreamEnd.raised) ∧
    generate [AgentEvent.on_tool_end "get_analyst_recommendations" ⟨"bs", false⟩]
      = ([], StreamEnd.raised) ∧
    generate [AgentEvent.on_tool_end "get_stock_news" ⟨"bs", false⟩]
      = ([], StreamEnd.raised) :=
  balance_sheet_downgrade ⟨"bs", false⟩ [] rfl

/-! ### End-to-end `POST /api/chat` request handling -/

/-- The process-wide mutable state: rate-limiter buckets,
`thread_last_active`, and the checkpointer storage. -/
structure ServerState where
  rateStore : RateStore
  threads : ThreadDict
  storage : List String
  deriving Repr

/-- The HTTP response of a chat request: the middleware's 429 JSON
rejection, or the streamed protocol events with how the stream
ended. -/
inductive HttpResponse where
  | rateLimited (status : Nat) (detail : String)
  | streamed (events : List ProtocolEvent) (ending : StreamEnd)
  deriving Repr

/-- One `POST /api/chat` request: the middleware runs first (path
`/api/chat`); on rejection the response returns immediately and the
handler never runs; on pass-through `chat` refreshes the thread store
(evicting over capacity) and streams the multiplexed agent events. -/
def handle_chat_request (st : ServerState) (ip tid : String) (now : Int)
    (delOk : Bool) (agentEvents : List AgentEvent) : HttpResponse × ServerState :=
  match rate_limit_middleware "/api/chat" ip now st.rateStore with
  | (.rejected status detail, rs) =>
    (.rateLimited status detail, { st with rateStore := rs })
  | (.passed, rs) =>
    let ts := chatTouch st.threads st.storage tid now delOk
    let ge := generate agentEvents
    (.streamed ge.1 ge.2, { rateStore := rs, threads := ts.1, storage := ts.2 })

theorem middleware_rejected_store (path ip : String) (now : Int) (s : RateStore)
    (status : Nat) (detail : String)
    (h : (rate_limit_middleware path ip now s).1 = MWResult.rejected status detail) :
    (rate_limit_middleware path ip now s).2
      = setBucket s ip ((getBucket s ip).filter (fun t => now - t < RATE_WINDOW)) := by
  simp only [rate_limit_middleware] at h ⊢
  split_ifs at h ⊢ with h1 h2
  rfl

/-- C9: when the admission check rejects a request, the only state
change is the pruning of the rejecting identity's bucket: the response
is the 429 rejection, the liveness map and checkpoint storage are
unchanged, every other identity's bucket is unchanged, and the
rejecting identity's bucket is exactly its pruned timestamp list (in
particular the rejected request's own timestamp is not recorded). -/
theorem rejection_frame (st : ServerState) (ip tid : String) (now : Int)
    (delOk : Bool) (evs : List AgentEvent) (status : Nat) (detail : String)
    (h : (handle_chat_request st ip tid now delOk evs).1
      = HttpResponse.rateLimited status detail) :
    (handle_chat_request st ip tid now delOk evs).2.threads = st.threads ∧
    (handle_chat_request st ip tid now delOk evs).2.storage = st.storage ∧
    getBucket (handle_chat_request st ip tid now delOk evs).2.rateStore ip
      = (getBucket st.rateStore ip).filter (fun t => now - t < RATE_WINDOW) ∧
    (∀ ip', ip' ≠ ip →
      getBucket (handle_chat_request st ip tid now delOk evs).2.rateStore ip'
        = getBucket st.rateStore ip') := by
  rcases hr : rate_limit_middleware "/api/chat" ip now st.rateStore with ⟨r, rs⟩
  cases r with
  | passed =>
    exfalso
    simp only [handle_chat_request, hr] at h
    exact HttpResponse.noConfusion h
  | rejected s0 d0 =>
    have hrs : rs = setBucket st.rateStore ip
        ((getBucket st.rateStore ip).filter (fun t => now - t < RATE_WINDOW)) := by
      have h2 := middleware_rejected_store "/api/chat" ip now st.rateStore s0 d0
        (by rw [hr])
      rw [hr] at h2
      exact h2
    simp only [handle_chat_request, hr]
    refine ⟨trivial, trivial, ?_, ?_⟩
    · rw [hrs, getBucket_setBucket_self]
    · intro ip' hne
      rw [hrs, getBucket_setBucket_other _ _ _ _ hne]

/-- Witness for C9: a full bucket of ten in-window timestamps at time
30 yields a rejected request whose only state change is the (here
trivial) pruning of that bucket. -/
theorem rejection_frame_witness :
    (handle_chat_request
        ⟨[("c", [0, 1, 2, 3, 4, 5, 6, 7, 8, 9])], [("t", 0)], ["t"]⟩
        "c" "t" 30 true []).2.threads = [("t", 0)] ∧
    (handle_chat_request
        ⟨[("c", [0, 1, 2, 3, 4, 5, 6, 7, 8, 9])], [("t", 0)], ["t"]⟩
        "c" "t" 30 true []).2.storage = ["t"] ∧
    getBucket (handle_chat_request
        ⟨[("c", [0, 1, 2, 3, 4, 5, 6, 7, 8, 9])], [("t", 0)], ["t"]⟩
        "c" "t" 30 true []).2.rateStore "c"
      = (getBucket [("c", [0, 1, 2, 3, 4, 5, 6, 7, 8, 9])] "c").filter
          (fun t => (30 : Int) - t < RATE_WINDOW) ∧
    (∀ ip', ip' ≠ "c" →
      getBucket (handle_chat_request
          ⟨[("c", [0, 1, 2, 3, 4, 5, 6, 7, 8, 9])], [("t", 0)], ["t"]⟩
          "c" "t" 30 true []).2.rateStore ip'
        = getBucket [("c", [0, 1, 2, 3, 4, 5, 6, 7, 8, 9])] ip') :=
  rejection_frame ⟨[("c", [0, 1, 2, 3, 4, 5, 6, 7, 8, 9])], [("t", 0)], ["t"]⟩
    "c" "t" 30 true [] 429 rateLimitDetail (by rfl)

end StockAssist
